import Mathlib

/-
Verification of the LWE primal-attack demo (src/src/main.py).

The Python program generates a toy LWE instance (b = A·s + e mod q), embeds it
into a (m+n+1)-dimensional integer lattice (Kannan's embedding), hands the basis
to an external reduction oracle (fpylll LLL/BKZ), and scans the reduced rows for
the secret.  The reduction oracle is external to the repository, so the scan is
modelled over an arbitrary list of reduced rows.  Wall-clock timing and console
output are omitted.

Conventions of the shallow embedding:
* numpy integer arrays become `List Int` (vectors) or functions
  `Nat → Nat → Int` together with explicit dimensions (matrices);
* Python `%` on integers with a positive modulus is floor-mod, which agrees
  with Lean's `Int.emod` (`%`); Python `//2` on a nonnegative integer agrees
  with Lean's `Int` division by `2`;
* a float comparison `norm < limit` with `norm = ‖diff‖₂ ≥ 0` and
  `limit = 2·alpha·q·sqrt m` is encoded exactly (over exact arithmetic) as
  `0 ≤ alpha·q ∧ normSq < (2·alpha·q)²·m`, where `normSq = ‖diff‖₂²` is an
  integer: for `m > 0` the limit is nonnegative iff `0 ≤ alpha·q`, and on
  nonnegative reals `x < y ↔ x² < y²`; for `m = 0` both sides are `0 < 0`;
* fallible code (an out-of-range numpy index raises `IndexError`; a Python
  function that can fail to produce a value) is modelled with `Option`.
-/

namespace LWE

/-- The centering expression `(x - y + q//2) % q - q//2` that appears verbatim
in `LWEInstance.check_solution` (line 49) and `verify_candidate` (line 159). -/
def centered_diff (x y q : Int) : Int :=
  (x - y + q / 2) % q - q / 2

/-- Sum of `f 0, …, f (k-1)`: the summation underlying `np.dot` and
`np.linalg.norm`. -/
def intSum (k : Nat) (f : Nat → Int) : Int :=
  ((List.range k).map f).sum

/-- Row `i` of `np.dot A s` for an `m×n` matrix `A` and a length-`n` vector
`s`: `∑ j < n, A[i,j]·s[j]`. -/
def Adot (A : Nat → Nat → Int) (n : Nat) (s : List Int) (i : Nat) : Int :=
  intSum n (fun j => A i j * s.getD j 0)

/-- Line 37 of `LWEInstance.generate`: `b = (np.dot(A, s) + e) % q`, elementwise
over the `m` samples.  The random draws `A`, `s`, `e` are parameters of the
model (the random source is an external boundary). -/
def generate_b (m n : Nat) (A : Nat → Nat → Int) (s e : List Int) (q : Int) :
    List Int :=
  (List.range m).map (fun i => (Adot A n s i + e.getD i 0) % q)

/-- The squared Euclidean norm of the centered difference between `b` and
`(A·c) mod q`, i.e. `np.linalg.norm(diff)**2` for
`diff = (b - A·c % q + q//2) % q - q//2` (lines 48–52 and 158–160). -/
def normSqDiff (m n : Nat) (A : Nat → Nat → Int) (b c : List Int) (q : Int) :
    Int :=
  intSum m (fun i => (centered_diff (b.getD i 0) (Adot A n c i % q) q) ^ 2)

/-- Function `verify_candidate(A, b, s_cand, q, alpha)` (lines 157–169):
`norm(diff) < 2.0 * (alpha * q * sqrt(len(b)))`, with `m = len(b)` and the
dot product ranging over `len(s_cand)` columns.  The square-root-free
encoding of the float comparison is explained in the header comment. -/
def verify_candidate (A : Nat → Nat → Int) (b s_cand : List Int) (q : Int)
    (alpha : ℚ) : Bool :=
  decide (0 ≤ alpha * q ∧
    ((normSqDiff b.length s_cand.length A b s_cand q : ℚ) <
      (2 * alpha * q) ^ 2 * b.length))

/-- The default value `alpha=0.005` of `verify_candidate`'s noise-rate
parameter (line 157). -/
def verify_default_alpha : ℚ := 5 / 1000

/-- The noise rate `alpha = 0.001` that the `__main__` driver uses to generate
the LWE instance (line 183). -/
def main_alpha : ℚ := 1 / 1000

/-- Method `LWEInstance.check_solution` (lines 42–61): `False` for an absent
candidate; otherwise `norm_diff < expected_norm * 2.0` (statistical test, with
`expected_norm = sqrt(m)·alpha·q`) or `np.array_equal(candidate_s, s)` (exact
test).  Same square-root-free encoding as `verify_candidate`. -/
def check_solution (m n : Nat) (A : Nat → Nat → Int) (s b : List Int)
    (q : Int) (alpha : ℚ) (candidate_s : Option (List Int)) : Bool :=
  match candidate_s with
  | none => false
  | some c =>
    (decide (0 ≤ alpha * q ∧
      ((normSqDiff m n A b c q : ℚ) < (2 * alpha * q) ^ 2 * m))) ||
    (decide (c = s))

/-- The four fields assigned by `LWEInstance.__init__` (lines 9–13). -/
structure LWEParams where
  n : Int
  m : Int
  q : Int
  alpha : ℚ

/-- Constructor `LWEInstance.__init__(n, m, q, alpha)` (lines 9–18): it only
assigns the four parameters to fields.  The `Option` result records whether
construction can signal an error; the body contains no validation and no
failure path. -/
def LWEInstance.init (n m q : Int) (alpha : ℚ) : Option LWEParams :=
  some ⟨n, m, q, alpha⟩

/-- An integer matrix, indexed `B[row, column]` like fpylll's
`IntegerMatrix`; `IntegerMatrix(d, d)` starts zero-initialised. -/
def Mat : Type := Nat → Nat → Int

/-- A single assignment `B[r, c] = v`. -/
def setEntry (B : Mat) (r c : Nat) (v : Int) : Mat :=
  fun i j => if i = r ∧ j = c then v else B i j

/-- Loop of lines 78–79: `for i in range(m): B[i, i] = q`. -/
def fill_qIm (m : Nat) (q : Int) (B : Mat) : Mat :=
  (List.range m).foldl (fun B i => setEntry B i i q) B

/-- Body of the loop of lines 84–91 for one value of `i`: write row `m+i`
with column `i` of `A` in columns `0..m-1`, then `B[m+i, m+i] = 1`. -/
def fill_row_block (m : Nat) (A : Nat → Nat → Int) (B : Mat) (i : Nat) : Mat :=
  setEntry ((List.range m).foldl (fun B j => setEntry B (m + i) j (A j i)) B)
    (m + i) (m + i) 1

/-- Loop of lines 84–91: `for i in range(n)`, filling the `Aᵗ` and `I_n`
blocks. -/
def fill_AT_In (m n : Nat) (A : Nat → Nat → Int) (B : Mat) : Mat :=
  (List.range n).foldl (fill_row_block m A) B

/-- Loop of lines 95–96: `for j in range(m): B[m+n, j] = int(b[j])`.  Reading
`b[j]` is fallible (numpy raises `IndexError` when `j ≥ len(b)`), hence the
`Option`-valued fold: `none` models the uncaught exception. -/
def fill_b (m n : Nat) (b : List Int) (B : Mat) : Option Mat :=
  (List.range m).foldlM
    (fun (B : Mat) j => (b.get? j).map (fun v => setEntry B (m + n) j v)) B

/-- Function `build_primal_lattice(A, b, q)` (lines 63–101), for `A` of shape `m×n`.
The four fill phases run in source order on the zero-initialised `d×d`
matrix; `none` models the `IndexError` abort, in which case no matrix is
returned. -/
def build_primal_lattice (m n : Nat) (A : Nat → Nat → Int) (b : List Int)
    (q : Int) : Option Mat :=
  match fill_b m n b (fill_AT_In m n A (fill_qIm m q (fun _ _ => 0))) with
  | none => none
  | some B3 => some (setEntry B3 (m + n) (m + n) 1)

/-- Line 137: the raw slice `[v[j] for j in range(m, m+n)]` of a reduced
row `v`. -/
def s_candidate (m n : Nat) (v : Nat → Int) : List Int :=
  (List.range n).map (fun j => v (m + j))

/-- Line 145: the positive sign variant `s_candidate % q` (elementwise,
normalized into `[0, q)`). -/
def s_cand_mod (m n : Nat) (q : Int) (v : Nat → Int) : List Int :=
  (s_candidate m n v).map (fun x => x % q)

/-- Line 150: the negative sign variant `(-s_candidate) % q` (elementwise,
normalized into `[0, q)`). -/
def s_cand_neg_mod (m n : Nat) (q : Int) (v : Nat → Int) : List Int :=
  (s_candidate m n v).map (fun x => (-x) % q)

/-- The body of the loop of `primal_attack` (lines 132–152) for one row `v` of
the reduced basis: test the positive variant, then the negative variant. -/
def try_row (A : Nat → Nat → Int) (b : List Int) (q : Int) (m n : Nat)
    (alpha : ℚ) (v : Nat → Int) : Option (List Int) :=
  if verify_candidate A b (s_cand_mod m n q v) q alpha then
    some (s_cand_mod m n q v)
  else if verify_candidate A b (s_cand_neg_mod m n q v) q alpha then
    some (s_cand_neg_mod m n q v)
  else none

/-- The candidate-search loop `for row_idx in range(min(10, B.nrows))` of
`primal_attack`, as a recursion on the number of remaining iterations:
`scan_go … rows i fuel` scans rows `i, i+1, …, i+fuel-1` and returns the first
verified candidate, or `none` (the code's "no candidate found" return value,
line 155) when the loop runs out of rows. -/
def scan_go (A : Nat → Nat → Int) (b : List Int) (q : Int) (m n : Nat)
    (alpha : ℚ) (rows : List (Nat → Int)) : Nat → Nat → Option (List Int)
  | _, 0 => none
  | i, fuel + 1 =>
    match try_row A b q m n alpha (rows.getD i (fun _ => 0)) with
    | some c => some c
    | none => scan_go A b q m n alpha rows (i + 1) fuel

/-- The candidate-extraction phase of `primal_attack` (lines 127–155) applied
to the rows of the reduced basis (`rows.length = B.nrows`).  The calls
`verify_candidate(A, b, s_cand_mod, q)` on lines 146 and 151 pass no `alpha`,
so Python supplies the default `0.005`. -/
def primal_attack_scan (A : Nat → Nat → Int) (b : List Int) (q : Int)
    (m n : Nat) (rows : List (Nat → Int)) : Option (List Int) :=
  scan_go A b q m n verify_default_alpha rows 0 (Nat.min 10 rows.length)

/-! ### Basic lemmas about the numeric primitives -/

theorem getD_map_range (f : Nat → Int) (m i : Nat) (h : i < m) :
    ((List.range m).map f).getD i 0 = f i := by
  simp [List.getD_eq_getElem?_getD, List.getElem?_map, List.getElem?_range h]

theorem intSum_succ (k : Nat) (f : Nat → Int) :
    intSum (k + 1) f = intSum k f + f k := by
  simp [intSum, List.range_succ]

theorem intSum_congr (k : Nat) (f g : Nat → Int) (h : ∀ i, i < k → f i = g i) :
    intSum k f = intSum k g := by
  induction k with
  | zero => rfl
  | succ k ih =>
    rw [intSum_succ, intSum_succ, ih (fun i hi => h i (by omega)), h k (by omega)]

theorem intSum_emod_congr (k : Nat) (f g : Nat → Int) (q : Int)
    (h : ∀ i, i < k → f i % q = g i % q) :
    intSum k f % q = intSum k g % q := by
  induction k with
  | zero => rfl
  | succ k ih =>
    rw [intSum_succ, intSum_succ]
    exact Int.ModEq.add (ih (fun i hi => h i (by omega))) (h k (by omega))

theorem centered_diff_nonneg_lb (x y q : Int) (hq : 0 < q) :
    -(q / 2) ≤ centered_diff x y q ∧ centered_diff x y q ≤ q - 1 - q / 2 := by
  unfold centered_diff
  have h1 : 0 ≤ (x - y + q / 2) % q := Int.emod_nonneg _ (by omega)
  have h2 : (x - y + q / 2) % q < q := Int.emod_lt_of_pos _ hq
  omega

theorem centered_diff_self (x q : Int) (hq : 0 < q) : centered_diff x x q = 0 := by
  unfold centered_diff
  have h : x - x + q / 2 = q / 2 := by ring
  rw [h, Int.emod_eq_of_lt (by omega) (by omega)]
  omega

theorem centered_diff_modeq (x y q : Int) :
    centered_diff x y q % q = (x - y) % q := by
  unfold centered_diff
  have h : (x - y + q / 2) % q ≡ x - y + q / 2 [ZMOD q] :=
    Int.emod_emod_of_dvd _ dvd_rfl
  have h2 := Int.ModEq.sub h (Int.ModEq.refl (q / 2))
  have h3 : x - y + q / 2 - q / 2 = x - y := by ring
  rw [h3] at h2
  exact h2

/-- Claim C5. The centering expression of `check_solution`/`verify_candidate`
equals `((x − y + q//2) mod q) − q//2` with floor-mod (so the intermediate
`mod q` lands in `[0, q)` even for negative inputs), vanishes at `x = y`, and
represents `x − y` modulo `q`.  Its exact range is `[−(q//2), q−1−q//2]`: it is
contained in the claimed half-open interval `(−q/2, q/2]` when `q` is odd, but
for even `q` the left endpoint `−q/2` itself is attained (see the
counterexample), so the claimed interval had to be widened to include
`−(q//2)`. -/
theorem centered_diff_correct (x y q : Int) (hq : 0 < q) :
    centered_diff x x q = 0 ∧
    centered_diff x y q = (x - y + q / 2) % q - q / 2 ∧
    centered_diff x y q % q = (x - y) % q ∧
    -(q / 2) ≤ centered_diff x y q ∧ centered_diff x y q ≤ q - 1 - q / 2 ∧
    (q % 2 = 1 →
      -((q : ℚ) / 2) < (centered_diff x y q : ℚ) ∧
        (centered_diff x y q : ℚ) ≤ (q : ℚ) / 2) := by
  obtain ⟨hlb, hub⟩ := centered_diff_nonneg_lb x y q hq
  refine ⟨centered_diff_self x q hq, rfl, centered_diff_modeq x y q, hlb, hub, ?_⟩
  intro hodd
  obtain ⟨k, hk⟩ : ∃ k, q = 2 * k + 1 := ⟨q / 2, by omega⟩
  have h1 : -(k : ℚ) ≤ (centered_diff x y q : ℚ) := by
    have : -k ≤ centered_diff x y q := by omega
    exact_mod_cast this
  have h2 : (centered_diff x y q : ℚ) ≤ (k : ℚ) := by
    have : centered_diff x y q ≤ k := by omega
    exact_mod_cast this
  subst hk
  push_cast
  constructor <;> linarith

/-- Witness for `centered_diff_correct` at `x = 3`, `y = 1`, `q = 5`. -/
theorem centered_diff_correct_witness :
    0 < (5 : Int) ∧
    (centered_diff 3 3 5 = 0 ∧
      centered_diff 3 1 5 = (3 - 1 + 5 / 2) % 5 - 5 / 2 ∧
      centered_diff 3 1 5 % 5 = (3 - 1) % 5 ∧
      -(5 / 2 : Int) ≤ centered_diff 3 1 5 ∧
        centered_diff 3 1 5 ≤ 5 - 1 - 5 / 2 ∧
      ((5 : Int) % 2 = 1 →
        -((5 : ℚ) / 2) < (centered_diff 3 1 5 : ℚ) ∧
          (centered_diff 3 1 5 : ℚ) ≤ (5 : ℚ) / 2)) :=
  ⟨by decide, centered_diff_correct 3 1 5 (by decide)⟩

/-- Claim C5, counterexample. For the even modulus `q = 2` the claim fails:
`centered_diff 1 0 2 = −1`, and `−1` is not in the half-open interval
`(−2/2, 2/2] = (−1, 1]`. -/
theorem centered_diff_even_modulus_cex :
    centered_diff 1 0 2 = -1 ∧
    ¬ (-((2 : ℚ) / 2) < ((centered_diff 1 0 2 : Int) : ℚ)) := by
  constructor
  · decide
  · have h : centered_diff 1 0 2 = -1 := by decide
    rw [h]
    norm_num

/-- Claim C8, amended. For `q = 97` the centered difference always lies in the
closed interval `[−48, 48]`; the claimed interval `(−48, 48]` excludes `−48`,
which is attained (see the counterexample). -/
theorem centered_diff_q97_range (x y : Int) :
    -48 ≤ centered_diff x y 97 ∧ centered_diff x y 97 ≤ 48 := by
  unfold centered_diff
  have h1 : 0 ≤ (x - y + 97 / 2) % 97 := Int.emod_nonneg _ (by omega)
  have h2 : (x - y + 97 / 2) % 97 < 97 := Int.emod_lt_of_pos _ (by omega)
  omega

/-- Claim C8, counterexample. `centered_diff 49 0 97 = −48`, which is outside
the claimed interval `(−48, 48]`. -/
theorem centered_diff_q97_cex :
    centered_diff 49 0 97 = -48 ∧ ¬ ((-48 : Int) < centered_diff 49 0 97) := by
  decide

/-! ### C1: the LWE relation holds for generated instances -/

/-- Claim C1. For every instance produced by `LWEInstance.generate` with valid
parameters (`n, m, q > 0`) and any values of the random draws `A`, `s`, `e`,
the generated vector `b` has length `m` and satisfies, per coordinate,
`b[i] = (A·s + e)[i] mod q` with the modulo normalized into `[0, q)`. -/
theorem generate_b_relation (m n : Nat) (A : Nat → Nat → Int) (s e : List Int)
    (q : Int) (hm : 0 < m) (hn : 0 < n) (hq : 0 < q) :
    (generate_b m n A s e q).length = m ∧
    ∀ i, i < m →
      (generate_b m n A s e q).getD i 0 = (Adot A n s i + e.getD i 0) % q ∧
      0 ≤ (generate_b m n A s e q).getD i 0 ∧
      (generate_b m n A s e q).getD i 0 < q := by
  constructor
  · simp [generate_b]
  · intro i hi
    have h : (generate_b m n A s e q).getD i 0 = (Adot A n s i + e.getD i 0) % q :=
      getD_map_range _ m i hi
    exact ⟨h, h ▸ Int.emod_nonneg _ (by omega), h ▸ Int.emod_lt_of_pos _ hq⟩

/-- Witness for `generate_b_relation`: `m = 2`, `n = 1`, `A = ((2),(3))`,
`s = (2)`, `e = (1, −1)`, `q = 5`. -/
theorem generate_b_relation_witness :
    (0 < 2 ∧ 0 < 1 ∧ 0 < (5 : Int)) ∧
    ((generate_b 2 1 (fun i _ => i + 2) [2] [1, -1] 5).length = 2 ∧
      ∀ i, i < 2 →
        (generate_b 2 1 (fun i _ => i + 2) [2] [1, -1] 5).getD i 0 =
          (Adot (fun i _ => i + 2) 1 [2] i + [1, -1].getD i 0) % 5 ∧
        0 ≤ (generate_b 2 1 (fun i _ => i + 2) [2] [1, -1] 5).getD i 0 ∧
        (generate_b 2 1 (fun i _ => i + 2) [2] [1, -1] 5).getD i 0 < 5) :=
  ⟨⟨by decide, by decide, by decide⟩,
    generate_b_relation 2 1 (fun i _ => i + 2) [2] [1, -1] 5
      (by decide) (by decide) (by decide)⟩

/-! ### C6: acceptance condition of `check_solution` -/

/-- Claim C6. `check_solution` rejects an absent candidate, and accepts a
present one exactly when the (squared) Euclidean norm of the centered
difference between `b` and `A·candidate mod q` is strictly below the square of
`2.0·sqrt(m)·alpha·q`, or the candidate equals the true secret `s` exactly.
(`norm < 2·sqrt(m)·alpha·q` on nonnegative reals is equivalent to
`norm² < (2·alpha·q)²·m`; the hypotheses `0 < q`, `0 < alpha` make the
threshold nonnegative.) -/
theorem check_solution_spec (m n : Nat) (A : Nat → Nat → Int) (s b : List Int)
    (q : Int) (alpha : ℚ) (c : List Int) (hq : 0 < q) (ha : 0 < alpha) :
    check_solution m n A s b q alpha none = false ∧
    (check_solution m n A s b q alpha (some c) = true ↔
      ((normSqDiff m n A b c q : ℚ) < (2 * alpha * q) ^ 2 * m ∨ c = s)) := by
  refine ⟨rfl, ?_⟩
  have hguard : 0 ≤ alpha * q := by
    have hq' : (0 : ℚ) ≤ (q : ℚ) := by exact_mod_cast le_of_lt hq
    exact mul_nonneg (le_of_lt ha) hq'
  simp only [check_solution, Bool.or_eq_true, decide_eq_true_eq]
  constructor
  · rintro (⟨_, h⟩ | h)
    · exact Or.inl h
    · exact Or.inr h
  · rintro (h | h)
    · exact Or.inl ⟨hguard, h⟩
    · exact Or.inr h

/-- Witness for `check_solution_spec` at `m = n = 1`, `A = (1)`, `s = (1)`,
`b = (1)`, `q = 5`, `alpha = 1/2`, candidate `(0)`. -/
theorem check_solution_spec_witness :
    (0 < (5 : Int) ∧ 0 < (1 / 2 : ℚ)) ∧
    (check_solution 1 1 (fun _ _ => 1) [1] [1] 5 (1 / 2) none = false ∧
      (check_solution 1 1 (fun _ _ => 1) [1] [1] 5 (1 / 2) (some [0]) = true ↔
        ((normSqDiff 1 1 (fun _ _ => 1) [1] [0] 5 : ℚ) <
            (2 * (1 / 2) * ((5 : Int) : ℚ)) ^ 2 * ((1 : Nat) : ℚ) ∨
          ([0] : List Int) = [1]))) :=
  ⟨⟨by decide, by norm_num⟩,
    check_solution_spec 1 1 (fun _ _ => 1) [1] [1] 5 (1 / 2) [0]
      (by decide) (by norm_num)⟩

/-! ### C10: `verify_candidate` depends on the candidate only modulo `q` -/

/-- Claim C10, amended. `verify_candidate` depends only on the residues of the
candidate's coordinates modulo `q` (and on its length): replacing any
coordinate by a congruent value — in particular replacing the candidate by the
candidate reduced mod `q`, or adding any multiple of `q` to a coordinate —
does not change the result.  Replacing the candidate by its *negation* (plus
any multiple of `q`) is not such a replacement and does change the result in
general: see the counterexample. -/
theorem verify_candidate_mod_invariant (A : Nat → Nat → Int) (b : List Int)
    (q : Int) (alpha : ℚ) (s1 s2 : List Int) (hq : 0 < q)
    (hlen : s1.length = s2.length)
    (hcong : ∀ j, j < s1.length → s1.getD j 0 % q = s2.getD j 0 % q) :
    verify_candidate A b s1 q alpha = verify_candidate A b s2 q alpha := by
  have hdot : ∀ i, Adot A s1.length s1 i % q = Adot A s1.length s2 i % q := by
    intro i
    exact intSum_emod_congr s1.length _ _ q
      (fun j hj => Int.ModEq.mul_left (A i j) (hcong j hj))
  have hnorm : normSqDiff b.length s1.length A b s1 q =
      normSqDiff b.length s1.length A b s2 q := by
    unfold normSqDiff
    exact intSum_congr _ _ _ (fun i _ => by rw [hdot i])
  unfold verify_candidate
  rw [hlen] at hnorm ⊢
  rw [hnorm]

/-- Witness for `verify_candidate_mod_invariant`: candidates `(6)` and `(1)`
agree mod `q = 5`. -/
theorem verify_candidate_mod_invariant_witness :
    (0 < (5 : Int) ∧ ([6] : List Int).length = ([1] : List Int).length ∧
      (∀ j, j < ([6] : List Int).length →
        ([6] : List Int).getD j 0 % 5 = ([1] : List Int).getD j 0 % 5)) ∧
    verify_candidate (fun _ _ => 1) [1] [6] 5 (1 / 10) =
      verify_candidate (fun _ _ => 1) [1] [1] 5 (1 / 10) :=
  ⟨⟨by decide, by decide, by decide⟩,
    verify_candidate_mod_invariant (fun _ _ => 1) [1] 5 (1 / 10) [6] [1]
      (by decide) (by decide) (by decide)⟩

/-- Claim C10, counterexample. The claim's parenthetical asserting that the
negated candidate (plus any multiple of `q`) yields the same result is false:
with `A = (1)`, `b = (1)`, `q = 5`, `alpha = 1/10`, the candidate `(1)`
verifies but its negation `(−1) = −(1) + 0·q` does not. -/
theorem verify_candidate_negation_cex :
    verify_candidate (fun _ _ => 1) [1] [1] 5 (1 / 10) = true ∧
    verify_candidate (fun _ _ => 1) [1] [-1] 5 (1 / 10) = false := by
  constructor
  · have h : normSqDiff 1 1 (fun _ _ => 1) [1] [1] 5 = 0 := by decide
    simp only [verify_candidate, List.length_cons, List.length_nil,
      decide_eq_true_eq, h]
    norm_num
  · have h : normSqDiff 1 1 (fun _ _ => 1) [1] [-1] 5 = 4 := by decide
    simp only [verify_candidate, List.length_cons, List.length_nil, h]
    norm_num

/-! ### Lemmas about the lattice construction -/

theorem setEntry_apply (B : Mat) (r c : Nat) (v : Int) (i j : Nat) :
    setEntry B r c v i j = if i = r ∧ j = c then v else B i j := rfl

theorem foldl_diag (l : List Nat) (q : Int) (B : Mat) (r c : Nat) :
    (l.foldl (fun B i => setEntry B i i q) B) r c =
      if r = c ∧ r ∈ l then q else B r c := by
  induction l generalizing B with
  | nil => simp
  | cons x xs ih =>
    rw [List.foldl_cons, ih]
    by_cases h1 : r = c ∧ r ∈ xs
    · rw [if_pos h1, if_pos ⟨h1.1, List.mem_cons.mpr (Or.inr h1.2)⟩]
    · rw [if_neg h1, setEntry_apply]
      by_cases h2 : r = x ∧ c = x
      · rw [if_pos h2, if_pos ⟨h2.1.trans h2.2.symm, List.mem_cons.mpr (Or.inl h2.1)⟩]
      · rw [if_neg h2, if_neg (by
          rintro ⟨hrc, hmem⟩
          rcases List.mem_cons.mp hmem with hx | hxs
          · exact h2 ⟨hx, hrc.symm.trans hx⟩
          · exact h1 ⟨hrc, hxs⟩)]

theorem foldl_row (l : List Nat) (row : Nat) (f : Nat → Int) (B : Mat) (r c : Nat) :
    (l.foldl (fun B j => setEntry B row j (f j)) B) r c =
      if r = row ∧ c ∈ l then f c else B r c := by
  induction l generalizing B with
  | nil => simp
  | cons x xs ih =>
    rw [List.foldl_cons, ih]
    by_cases h1 : r = row ∧ c ∈ xs
    · rw [if_pos h1, if_pos ⟨h1.1, List.mem_cons.mpr (Or.inr h1.2)⟩]
    · rw [if_neg h1, setEntry_apply]
      by_cases h2 : r = row ∧ c = x
      · rw [if_pos h2, if_pos ⟨h2.1, List.mem_cons.mpr (Or.inl h2.2)⟩, h2.2]
      · rw [if_neg h2, if_neg (by
          rintro ⟨hr, hmem⟩
          rcases List.mem_cons.mp hmem with hx | hxs
          · exact h2 ⟨hr, hx⟩
          · exact h1 ⟨hr, hxs⟩)]

theorem fill_qIm_apply (m : Nat) (q : Int) (B : Mat) (r c : Nat) :
    fill_qIm m q B r c = if r = c ∧ r < m then q else B r c := by
  rw [fill_qIm, foldl_diag]
  simp [List.mem_range]

theorem fill_row_block_apply (m : Nat) (A : Nat → Nat → Int) (B : Mat)
    (i r c : Nat) :
    fill_row_block m A B i r c =
      if r = m + i then
        (if c = m + i then 1 else if c < m then A c i else B r c)
      else B r c := by
  rw [fill_row_block, setEntry_apply, foldl_row]
  simp only [List.mem_range]
  split_ifs <;> first | rfl | (exfalso; omega)

theorem fill_AT_In_apply (m n : Nat) (A : Nat → Nat → Int) (B : Mat) (r c : Nat) :
    fill_AT_In m n A B r c =
      if m ≤ r ∧ r < m + n then
        (if c = r then 1 else if c < m then A c (r - m) else B r c)
      else B r c := by
  induction n with
  | zero =>
    rw [fill_AT_In]
    simp only [List.range_zero, List.foldl_nil]
    rw [if_neg (by omega)]
  | succ n ih =>
    rw [fill_AT_In, List.range_succ, List.foldl_append, List.foldl_cons,
      List.foldl_nil]
    rw [show (List.range n).foldl (fill_row_block m A) B = fill_AT_In m n A B from rfl]
    rw [fill_row_block_apply, ih]
    split_ifs <;> first | rfl | (exfalso; omega) | (congr 1; omega)

theorem foldlM_option_none (g : Mat → Nat → Option Mat) (l : List Nat) (x : Nat)
    (hnone : ∀ b, g b x = none) :
    ∀ B, x ∈ l → l.foldlM g B = none := by
  induction l with
  | nil => intro B hx; simp at hx
  | cons y ys ih =>
    intro B hx
    rw [List.foldlM_cons]
    rcases List.mem_cons.mp hx with hxy | hxs
    · rw [← hxy, hnone B]
      rfl
    · cases hg : g B y with
      | none => rfl
      | some B2 => exact ih B2 hxs

theorem foldlM_option_some (g : Mat → Nat → Option Mat) (f : Mat → Nat → Mat)
    (l : List Nat) :
    (∀ B x, x ∈ l → g B x = some (f B x)) →
      ∀ B, l.foldlM g B = some (l.foldl f B) := by
  induction l with
  | nil => intro _ B; rfl
  | cons y ys ih =>
    intro h B
    rw [List.foldlM_cons, h B y (List.mem_cons_self y ys), List.foldl_cons]
    exact ih (fun B x hx => h B x (List.mem_cons.mpr (Or.inr hx))) (f B y)

theorem fill_b_eq_none (m n : Nat) (b : List Int) (B : Mat)
    (h : b.length < m) : fill_b m n b B = none := by
  apply foldlM_option_none _ _ b.length _ B (List.mem_range.mpr h)
  intro B2
  simp [List.get?_eq_getElem?, List.getElem?_eq_none (le_refl b.length)]

theorem fill_b_eq_some (m n : Nat) (b : List Int) (B : Mat)
    (h : m ≤ b.length) :
    fill_b m n b B =
      some ((List.range m).foldl (fun B j => setEntry B (m + n) j (b.getD j 0)) B) := by
  apply foldlM_option_some _ _ _ _ B
  intro B2 x hx
  have hxl : x < b.length := lt_of_lt_of_le (List.mem_range.mp hx) h
  rw [show b.get? x = some (b.getD x 0) by
    simp [List.get?_eq_getElem?, List.getD_eq_getElem?_getD, List.getElem?_eq_getElem hxl]]
  rfl

/-! ### C2: layout of the embedding lattice -/

/-- Claim C2. For `b` of length `m` (consistent with `A`'s shape `m×n`) and any
`q`, the builder returns a matrix laid out exactly per the §3 block
structure on the index square `[0, m+n+1)²`: rows `i < m` are `q·I_m` (in
fact `B i j = q·I` for every column index `j`), rows `m ≤ i < m+n` hold `Aᵗ`
in columns `< m`, `1` on the diagonal and `0` elsewhere, and the last row
`m+n` holds `b` in columns `< m`, `1` in column `m+n` and `0` elsewhere;
consequently the column at index `m+n` has exactly one nonzero entry, the `1`
in the last row. -/
theorem build_primal_lattice_layout (m n : Nat) (A : Nat → Nat → Int)
    (b : List Int) (q : Int) (hb : b.length = m) :
    ∃ B, build_primal_lattice m n A b q = some B ∧
      (∀ i j, i < m → B i j = if j = i then q else 0) ∧
      (∀ i j, m ≤ i → i < m + n →
        B i j = if j < m then A j (i - m) else if j = i then 1 else 0) ∧
      (∀ j, B (m + n) j =
        if j < m then b.getD j 0 else if j = m + n then 1 else 0) ∧
      (∀ i, i ≤ m + n → (B i (m + n) ≠ 0 ↔ i = m + n)) := by
  have hfill := fill_b_eq_some m n b (fill_AT_In m n A (fill_qIm m q (fun _ _ => 0)))
    (by omega)
  have happ : ∀ r c,
      (setEntry ((List.range m).foldl (fun B j => setEntry B (m + n) j (b.getD j 0))
          (fill_AT_In m n A (fill_qIm m q (fun _ _ => 0)))) (m + n) (m + n) 1) r c =
        if r = m + n ∧ c = m + n then 1
        else if r = m + n ∧ c < m then b.getD c 0
        else if m ≤ r ∧ r < m + n then
          (if c = r then 1 else if c < m then A c (r - m) else 0)
        else if r = c ∧ r < m then q
        else 0 := by
    intro r c
    rw [setEntry_apply, foldl_row, fill_AT_In_apply, fill_qIm_apply]
    simp only [List.mem_range]
    split_ifs <;> first | rfl | (exfalso; omega) | (congr 1; omega)
  refine ⟨setEntry ((List.range m).foldl (fun B j => setEntry B (m + n) j (b.getD j 0))
      (fill_AT_In m n A (fill_qIm m q (fun _ _ => 0)))) (m + n) (m + n) 1,
    ?_, ?_, ?_, ?_, ?_⟩
  · unfold build_primal_lattice
    rw [hfill]
  · intro i j hij
    rw [happ i j]
    split_ifs <;> first | rfl | (exfalso; omega) | (congr 1; omega)
  · intro i j h1 h2
    rw [happ i j]
    split_ifs <;> first | rfl | (exfalso; omega) | (congr 1; omega)
  · intro j
    rw [happ (m + n) j]
    split_ifs <;> first | rfl | (exfalso; omega) | (congr 1; omega)
  · intro i hi
    rw [happ i (m + n)]
    by_cases hi2 : i = m + n
    · subst hi2
      rw [if_pos ⟨rfl, rfl⟩]
      exact iff_of_true (by norm_num) rfl
    · rw [if_neg (by omega), if_neg (by omega)]
      by_cases h3 : m ≤ i ∧ i < m + n
      · rw [if_pos h3, if_neg (by omega), if_neg (by omega)]
        exact iff_of_false (by norm_num) hi2
      · rw [if_neg h3, if_neg (by omega)]
        exact iff_of_false (by norm_num) hi2

/-- Witness for `build_primal_lattice_layout` at `m = n = 1`, `A = (7)`,
`b = (3)`, `q = 5`. -/
theorem build_primal_lattice_layout_witness :
    ([3] : List Int).length = 1 ∧
    (∃ B, build_primal_lattice 1 1 (fun _ _ => 7) [3] 5 = some B ∧
      (∀ i j, i < 1 → B i j = if j = i then 5 else 0) ∧
      (∀ i j, 1 ≤ i → i < 1 + 1 →
        B i j = if j < 1 then (fun _ _ => (7 : Int)) j (i - 1)
          else if j = i then 1 else 0) ∧
      (∀ j, B (1 + 1) j =
        if j < 1 then ([3] : List Int).getD j 0 else if j = 1 + 1 then 1 else 0) ∧
      (∀ i, i ≤ 1 + 1 → (B i (1 + 1) ≠ 0 ↔ i = 1 + 1))) :=
  ⟨by decide, build_primal_lattice_layout 1 1 (fun _ _ => 7) [3] 5 (by decide)⟩

/-! ### C7: behaviour on mismatched shapes -/

/-- Claim C7, amended. Building the embedding lattice aborts — with numpy's
uncaught `IndexError`, there is no dedicated ShapeMismatch error in the code
— exactly when `b` has fewer than `m` entries; in that case no (partially
built) matrix is returned, and nothing is retried.  In the opposite
mismatched case, `b` longer than `m`, no error is raised: the extra entries
are silently ignored and a fully built matrix is returned. -/
theorem build_primal_lattice_none_iff (m n : Nat) (A : Nat → Nat → Int)
    (b : List Int) (q : Int) :
    build_primal_lattice m n A b q = none ↔ b.length < m := by
  constructor
  · intro h
    by_contra hge
    rw [Nat.not_lt] at hge
    unfold build_primal_lattice at h
    rw [fill_b_eq_some m n b _ hge] at h
    exact Option.noConfusion h
  · intro h
    unfold build_primal_lattice
    rw [fill_b_eq_none m n b _ h]

/-- Claim C7, counterexample. `A` of shape `1×1` with `b` of length `2` is a
dimension mismatch, yet `build_primal_lattice` does not fail: it returns a
fully built matrix. -/
theorem build_primal_lattice_mismatch_cex :
    (build_primal_lattice 1 1 (fun _ _ => 1) [2, 3] 5).isSome = true ∧
    ([2, 3] : List Int).length ≠ 1 := by
  constructor
  · rfl
  · decide

/-! ### C3: the candidate search scans rows in order, positive variant first -/

theorem try_row_eq_none_iff (A : Nat → Nat → Int) (b : List Int) (q : Int)
    (m n : Nat) (alpha : ℚ) (v : Nat → Int) :
    try_row A b q m n alpha v = none ↔
      verify_candidate A b (s_cand_mod m n q v) q alpha = false ∧
      verify_candidate A b (s_cand_neg_mod m n q v) q alpha = false := by
  cases hpos : verify_candidate A b (s_cand_mod m n q v) q alpha <;>
    cases hneg : verify_candidate A b (s_cand_neg_mod m n q v) q alpha <;>
      simp [try_row, hpos, hneg]

theorem try_row_eq_some_iff (A : Nat → Nat → Int) (b : List Int) (q : Int)
    (m n : Nat) (alpha : ℚ) (v : Nat → Int) (c : List Int) :
    try_row A b q m n alpha v = some c ↔
      ((verify_candidate A b (s_cand_mod m n q v) q alpha = true ∧
        c = s_cand_mod m n q v) ∨
       (verify_candidate A b (s_cand_mod m n q v) q alpha = false ∧
        verify_candidate A b (s_cand_neg_mod m n q v) q alpha = true ∧
        c = s_cand_neg_mod m n q v)) := by
  cases hpos : verify_candidate A b (s_cand_mod m n q v) q alpha <;>
    cases hneg : verify_candidate A b (s_cand_neg_mod m n q v) q alpha <;>
      simp [try_row, hpos, hneg, eq_comm]

theorem scan_go_succ (A : Nat → Nat → Int) (b : List Int) (q : Int) (m n : Nat)
    (alpha : ℚ) (rows : List (Nat → Int)) (i fuel : Nat) :
    scan_go A b q m n alpha rows i (fuel + 1) =
      match try_row A b q m n alpha (rows.getD i (fun _ => 0)) with
      | some c => some c
      | none => scan_go A b q m n alpha rows (i + 1) fuel := rfl

theorem scan_go_eq_none_iff (A : Nat → Nat → Int) (b : List Int) (q : Int)
    (m n : Nat) (alpha : ℚ) (rows : List (Nat → Int)) :
    ∀ (fuel i : Nat),
      scan_go A b q m n alpha rows i fuel = none ↔
        ∀ k, k < fuel →
          try_row A b q m n alpha (rows.getD (i + k) (fun _ => 0)) = none := by
  intro fuel
  induction fuel with
  | zero => intro i; simp [scan_go]
  | succ fuel ih =>
    intro i
    rw [scan_go_succ]
    cases htr : try_row A b q m n alpha (rows.getD i (fun _ => 0)) with
    | some c =>
      refine iff_of_false (by simp) ?_
      intro hall
      have h0 := hall 0 (by omega)
      rw [Nat.add_zero, htr] at h0
      exact Option.noConfusion h0
    | none =>
      rw [ih (i + 1)]
      constructor
      · intro h k hk
        cases k with
        | zero => rw [Nat.add_zero]; exact htr
        | succ k' =>
          have := h k' (by omega)
          rw [show i + 1 + k' = i + (k' + 1) by omega] at this
          exact this
      · intro h k hk
        have := h (k + 1) (by omega)
        rw [show i + (k + 1) = i + 1 + k by omega] at this
        exact this

theorem scan_go_eq_some_iff (A : Nat → Nat → Int) (b : List Int) (q : Int)
    (m n : Nat) (alpha : ℚ) (rows : List (Nat → Int)) (c : List Int) :
    ∀ (fuel i : Nat),
      scan_go A b q m n alpha rows i fuel = some c ↔
        ∃ k, k < fuel ∧
          (∀ j, j < k →
            try_row A b q m n alpha (rows.getD (i + j) (fun _ => 0)) = none) ∧
          try_row A b q m n alpha (rows.getD (i + k) (fun _ => 0)) = some c := by
  intro fuel
  induction fuel with
  | zero => intro i; simp [scan_go]
  | succ fuel ih =>
    intro i
    rw [scan_go_succ]
    cases htr : try_row A b q m n alpha (rows.getD i (fun _ => 0)) with
    | some c0 =>
      constructor
      · intro h
        refine ⟨0, by omega, fun j hj => absurd hj (by omega), ?_⟩
        rw [Nat.add_zero, htr]
        exact h
      · rintro ⟨k, hk, hprev, hsome⟩
        cases k with
        | zero =>
          rw [Nat.add_zero, htr] at hsome
          exact hsome
        | succ k' =>
          have h0 := hprev 0 (by omega)
          rw [Nat.add_zero, htr] at h0
          exact Option.noConfusion h0
    | none =>
      rw [ih (i + 1)]
      constructor
      · rintro ⟨k, hk, hprev, hsome⟩
        refine ⟨k + 1, by omega, ?_, ?_⟩
        · intro j hj
          cases j with
          | zero => rw [Nat.add_zero]; exact htr
          | succ j' =>
            have := hprev j' (by omega)
            rw [show i + 1 + j' = i + (j' + 1) by omega] at this
            exact this
        · rw [show i + (k + 1) = i + 1 + k by omega]
          exact hsome
      · rintro ⟨k, hk, hprev, hsome⟩
        cases k with
        | zero =>
          rw [Nat.add_zero, htr] at hsome
          exact Option.noConfusion hsome
        | succ k' =>
          refine ⟨k', by omega, ?_, ?_⟩
          · intro j hj
            have := hprev (j + 1) (by omega)
            rw [show i + (j + 1) = i + 1 + j by omega] at this
            exact this
          · rw [show i + (k' + 1) = i + 1 + k' by omega] at hsome
            exact hsome

/-- Claim C3. The extraction phase scans rows `0, 1, …` of the reduced basis up
to the row limit `min 10 rows.length`; for each row it slices indices
`[m, m+n)` and forms the variants `raw mod q` and `(−raw) mod q` (that is what
`s_cand_mod`/`s_cand_neg_mod` compute, both normalized into `[0, q)`), and
returns the first variant in row-then-sign order that passes verification
(positive variant of a row before its negative variant); when no row/sign
combination within the limit verifies, it evaluates to the ordinary value
`none` ("no candidate found") — the function is total, so this outcome is not
an exception. -/
theorem primal_attack_scan_first_match (A : Nat → Nat → Int) (b : List Int)
    (q : Int) (m n : Nat) (rows : List (Nat → Int)) (c : List Int) :
    (primal_attack_scan A b q m n rows = some c ↔
      ∃ k, k < Nat.min 10 rows.length ∧
        (∀ j, j < k →
          verify_candidate A b (s_cand_mod m n q (rows.getD j (fun _ => 0))) q
              verify_default_alpha = false ∧
          verify_candidate A b (s_cand_neg_mod m n q (rows.getD j (fun _ => 0))) q
              verify_default_alpha = false) ∧
        ((verify_candidate A b (s_cand_mod m n q (rows.getD k (fun _ => 0))) q
              verify_default_alpha = true ∧
          c = s_cand_mod m n q (rows.getD k (fun _ => 0))) ∨
         (verify_candidate A b (s_cand_mod m n q (rows.getD k (fun _ => 0))) q
              verify_default_alpha = false ∧
          verify_candidate A b (s_cand_neg_mod m n q (rows.getD k (fun _ => 0))) q
              verify_default_alpha = true ∧
          c = s_cand_neg_mod m n q (rows.getD k (fun _ => 0))))) ∧
    (primal_attack_scan A b q m n rows = none ↔
      ∀ k, k < Nat.min 10 rows.length →
        verify_candidate A b (s_cand_mod m n q (rows.getD k (fun _ => 0))) q
            verify_default_alpha = false ∧
        verify_candidate A b (s_cand_neg_mod m n q (rows.getD k (fun _ => 0))) q
            verify_default_alpha = false) := by
  unfold primal_attack_scan
  rw [scan_go_eq_some_iff A b q m n verify_default_alpha rows c (Nat.min 10 rows.length) 0,
    scan_go_eq_none_iff A b q m n verify_default_alpha rows (Nat.min 10 rows.length) 0]
  simp only [Nat.zero_add, try_row_eq_none_iff, try_row_eq_some_iff]
  exact ⟨trivial, trivial⟩

/-! ### C4: which noise rate the extractor's verification uses -/

/-- Claim C4, amended. The verification applied by the extractor is
`verify_candidate` at its baked-in default noise rate `alpha = 0.005`
(`primal_attack` passes no `alpha` on lines 146 and 151), which is *not* the
noise rate `alpha = 0.001` that the driver uses to generate the LWE
instance. -/
theorem primal_attack_scan_uses_default_alpha (A : Nat → Nat → Int)
    (b : List Int) (q : Int) (m n : Nat) (rows : List (Nat → Int)) :
    primal_attack_scan A b q m n rows =
      scan_go A b q m n (5 / 1000) rows 0 (Nat.min 10 rows.length) ∧
    verify_default_alpha = 5 / 1000 ∧ main_alpha = 1 / 1000 ∧
    verify_default_alpha ≠ main_alpha := by
  refine ⟨rfl, rfl, rfl, ?_⟩
  rw [verify_default_alpha, main_alpha]
  norm_num

/-- Claim C4, counterexample.  With `A = (0)`, `b = (1)`, `q = 101` and the
single reduced row `(0, 0, 0)`, the attack's scan (using the baked-in default
`alpha = 0.005`) accepts the candidate `(0)`, while the same scan at the
driver's generation noise rate `main_alpha = 0.001` rejects every candidate:
the verification used by the extractor is not the one at the generation
`alpha`. -/
theorem primal_attack_scan_alpha_cex :
    primal_attack_scan (fun _ _ => 0) [1] 101 1 1 [fun _ => 0] = some [0] ∧
    scan_go (fun _ _ => 0) [1] 101 1 1 main_alpha [fun _ => 0] 0
      (Nat.min 10 1) = none ∧
    verify_default_alpha ≠ main_alpha := by
  have hpos : s_cand_mod 1 1 101 (fun _ => (0 : Int)) = [0] := by decide
  have hneg : s_cand_neg_mod 1 1 101 (fun _ => (0 : Int)) = [0] := by decide
  have hn : normSqDiff 1 1 (fun _ _ => (0 : Int)) [1] [0] 101 = 1 := by decide
  have hv1 : verify_candidate (fun _ _ => 0) [1] [0] 101 verify_default_alpha = true := by
    simp only [verify_candidate, verify_default_alpha, List.length_cons,
      List.length_nil, hn, decide_eq_true_eq]
    norm_num
  have hv2 : verify_candidate (fun _ _ => 0) [1] [0] 101 main_alpha = false := by
    simp only [verify_candidate, main_alpha, List.length_cons, List.length_nil, hn]
    apply decide_eq_false
    rintro ⟨-, hb⟩
    norm_num at hb
  refine ⟨?_, ?_, ?_⟩
  · show scan_go (fun _ _ => 0) [1] 101 1 1 verify_default_alpha [fun _ => 0] 0 1 =
      some [0]
    rw [scan_go_succ (fun _ _ => 0) [1] 101 1 1 verify_default_alpha [fun _ => 0] 0 0]
    simp only [List.getD_cons_zero, try_row, hpos, hneg, hv1, if_true]
  · show scan_go (fun _ _ => 0) [1] 101 1 1 main_alpha [fun _ => 0] 0 1 = none
    rw [scan_go_succ (fun _ _ => 0) [1] 101 1 1 main_alpha [fun _ => 0] 0 0]
    simp only [List.getD_cons_zero, try_row, hpos, hneg, hv2, Bool.false_eq_true,
      if_false]
    rfl
  · rw [verify_default_alpha, main_alpha]
    norm_num

/-! ### C9: absence of parameter validation at construction -/

/-- Claim C9, amended. `LWEInstance.__init__` performs no validation at all:
constructing an instance with non-positive `n`, `m` or `q`, or with `alpha`
outside `(0, 1)`, does not fail — the constructor simply stores the given
parameters (there is no `InvalidParameter` error anywhere in the code, and
`primal_attack` likewise never validates `block_size`, which is merely
forwarded to the external reduction oracle). -/
theorem LWEInstance_init_no_validation (n m q : Int) (alpha : ℚ) :
    LWEInstance.init n m q alpha = some ⟨n, m, q, alpha⟩ := rfl

/-- Claim C9, counterexample. Construction with `n = −1`, `m = 0`, `q = 0` and
`alpha = 2` — all of which the claim says must be rejected with a fatal
`InvalidParameter` error — succeeds. -/
theorem LWEInstance_init_invalid_params_cex :
    (LWEInstance.init (-1) 0 0 2).isSome = true ∧
    ¬(0 < (-1 : Int)) ∧ ¬(0 < (0 : Int)) ∧ ¬((2 : ℚ) < 1) := by
  refine ⟨rfl, by norm_num, by norm_num, by norm_num⟩

end LWE
